import Mathlib

/-!
Shallow embedding of the FastSLAM core of this repository (slam/map.py,
slam/particle.py, slam/offline.py, sensor_data/sensor_data.py) and proofs
about it.  Floating-point numbers are modelled as real numbers; NumPy
arrays of fixed small dimension as tuples and a bespoke 2x2 matrix type.
Python's `np.mod` and the angle wraps are modelled exactly via the floor
function.  The EKF class (`ekf/ekf.py`) is imported by the sources but is
not part of the repository snapshot; where its behaviour is needed it is
modelled from the spec, as marked in the doc comments.
-/

open Real

noncomputable section

/-- NumPy remainder `np.mod(a, m) = a - m * floor(a / m)`; for `m > 0` the
result lies in `[0, m)`. -/
def npMod (a m : ℝ) : ℝ := a - m * ⌊a / m⌋

/-- The angle wrap `np.mod(x + pi, 2*pi) - pi` used throughout
`slam/particle.py` and `slam/map.py`. -/
def wrapPi (x : ℝ) : ℝ := npMod (x + π) (2 * π) - π

theorem npMod_eq_fract (a m : ℝ) (hm : m ≠ 0) :
    npMod a m = m * Int.fract (a / m) := by
  unfold npMod
  rw [Int.fract]
  field_simp

theorem npMod_nonneg (a m : ℝ) (hm : 0 < m) : 0 ≤ npMod a m := by
  rw [npMod_eq_fract a m (ne_of_gt hm)]
  exact mul_nonneg hm.le (Int.fract_nonneg _)

theorem npMod_lt (a m : ℝ) (hm : 0 < m) : npMod a m < m := by
  rw [npMod_eq_fract a m (ne_of_gt hm)]
  calc m * Int.fract (a / m) < m * 1 :=
        (mul_lt_mul_left hm).mpr (Int.fract_lt_one _)
    _ = m := mul_one m

theorem wrapPi_mem (x : ℝ) : -π ≤ wrapPi x ∧ wrapPi x < π := by
  unfold wrapPi
  constructor
  · have h := npMod_nonneg (x + π) (2 * π) (by positivity)
    linarith
  · have h := npMod_lt (x + π) (2 * π) (by positivity)
    linarith

theorem wrapPi_zero : wrapPi 0 = 0 := by
  unfold wrapPi npMod
  have h1 : (0 + π) / (2 * π) = 1 / 2 := by
    field_simp
    ring
  rw [h1]
  norm_num

theorem wrapPi_pi : wrapPi π = -π := by
  unfold wrapPi npMod
  have h1 : (π + π) / (2 * π) = 1 := by
    field_simp
    ring
  rw [h1]
  norm_num
  ring

/-- The `diff` closure of `Particle.make_line_observation`
(`slam/particle.py` lines 69-70): subtract the range components and wrap
the angular difference. -/
def lineDiff (a b : ℝ × ℝ) : ℝ × ℝ := (a.1 - b.1, wrapPi (a.2 - b.2))

/-- A 2x2 real matrix `[[a, b], [c, d]]`, the shape of every matrix the
unoriented and line pipelines of `slam/particle.py` build. -/
structure Mat2 where
  a : ℝ
  b : ℝ
  c : ℝ
  d : ℝ

/-- Matrix-vector product. -/
def Mat2.mulVec (m : Mat2) (v : ℝ × ℝ) : ℝ × ℝ :=
  (m.a * v.1 + m.b * v.2, m.c * v.1 + m.d * v.2)

/-- Matrix product. -/
def Mat2.mul (m n : Mat2) : Mat2 :=
  ⟨m.a * n.a + m.b * n.c, m.a * n.b + m.b * n.d,
   m.c * n.a + m.d * n.c, m.c * n.b + m.d * n.d⟩

/-- Transpose. -/
def Mat2.transpose (m : Mat2) : Mat2 := ⟨m.a, m.c, m.b, m.d⟩

/-- Determinant. -/
def Mat2.det (m : Mat2) : ℝ := m.a * m.d - m.b * m.c

/-- Inverse by the adjugate formula, `np.linalg.inv` on a 2x2 argument
(junk when the determinant vanishes; `Map.update` guards that case
explicitly where it matters). -/
def Mat2.inv (m : Mat2) : Mat2 :=
  ⟨m.d / m.det, -m.b / m.det, -m.c / m.det, m.a / m.det⟩

/-- Identity matrix. -/
def Mat2.id : Mat2 := ⟨1, 0, 0, 1⟩

/-- Dot product of 2-vectors. -/
def dot2 (v w : ℝ × ℝ) : ℝ := v.1 * w.1 + v.2 * w.2

/-- The rotation matrix `R` built in `Particle.make_line_observation`
(`slam/particle.py` line 56): `[[cos t, -sin t], [sin t, cos t]]`. -/
def rotCCW (t : ℝ) : Mat2 := ⟨Real.cos t, -Real.sin t, Real.sin t, Real.cos t⟩

/-- The measurement model closure `h` of `Particle.make_line_observation`
(`slam/particle.py` lines 73-81), for robot pose `(px, py, th)` and noise
gain `nG`: world line `(rh_world, th_world)` to robot-frame `(rh, th)`
plus `n_gain @ n`.  A negative robot-frame `rh` is negated, but the code
wraps the unchanged angle (`np.mod(th_robot + pi, 2pi) - pi`, which is
`wrapPi th_robot`) instead of adding `pi` first. -/
def lineH (px py th : ℝ) (nG : Mat2) (x : ℝ × ℝ) (n : ℝ × ℝ) : ℝ × ℝ :=
  let thRobot := wrapPi (x.2 - th)
  let R := rotCCW th
  let pt := R.transpose.mulVec (x.1 * Real.cos x.2 - px, x.1 * Real.sin x.2 - py)
  let rhRobot := dot2 pt (Real.cos thRobot, Real.sin thRobot)
  let z := if rhRobot < 0 then (-rhRobot, wrapPi thRobot) else (rhRobot, thRobot)
  (z.1 + (nG.mulVec n).1, z.2 + (nG.mulVec n).2)

/-- The inverse measurement closure `h_inv` of
`Particle.make_line_observation` (`slam/particle.py` lines 59-67):
robot-frame `(rh, th)` to world-frame `(rh_world, th_world)`, with the
same reflection that wraps the unchanged angle instead of adding `pi`. -/
def lineHinv (px py th : ℝ) (z : ℝ × ℝ) : ℝ × ℝ :=
  let thWorld := wrapPi (z.2 + th)
  let R := rotCCW th
  let pt0 := R.mulVec (z.1 * Real.cos z.2, z.1 * Real.sin z.2)
  let pt : ℝ × ℝ := (pt0.1 + px, pt0.2 + py)
  let rhWorld := dot2 pt (Real.cos thWorld, Real.sin thWorld)
  if rhWorld < 0 then (-rhWorld, wrapPi thWorld) else (rhWorld, thWorld)

/-- Matrix sum. -/
def Mat2.add (m n : Mat2) : Mat2 := ⟨m.a + n.a, m.b + n.b, m.c + n.c, m.d + n.d⟩

/-- Two-argument arctangent, `np.arctan2(y, x)` (with `atan2 0 0 = 0`). -/
def atan2 (y x : ℝ) : ℝ :=
  if 0 < x then Real.arctan (y / x)
  else if x < 0 then
    (if 0 ≤ y then Real.arctan (y / x) + π else Real.arctan (y / x) - π)
  else if 0 < y then π / 2 else if y < 0 then -π / 2 else 0

/-- The Jacobian closure `get_Dhx` of `Particle.make_line_observation`
(`slam/particle.py` lines 84-90). -/
def lineDhx (px py : ℝ) (x : ℝ × ℝ) : Mat2 :=
  let direction := -Real.sign (dot2 (px, py) (Real.cos x.2, Real.sin x.2) - x.1)
  let rho := Real.sqrt (px ^ 2 + py ^ 2)
  let alpha := atan2 py px
  ⟨direction, rho * Real.sin (x.2 - alpha + (-direction + 1) / 2 * π), 0, 1⟩

/-- The Jacobian closure `get_Dhn` of `Particle.make_line_observation`
(`slam/particle.py` lines 92-93): the constant noise gain. -/
def lineDhn (nG : Mat2) (x : ℝ × ℝ) : Mat2 := nG

/-- The density `scipy.stats.multivariate_normal(mean=[0,0], cov).pdf(y)`
used by the association loop of `Particle.make_line_observation`
(`slam/particle.py` lines 120-121):
`(2 pi)^(-1) (det cov)^(-1/2) exp(-(1/2) y^T cov^(-1) y)`. -/
def gaussPdf2 (cov : Mat2) (y : ℝ × ℝ) : ℝ :=
  (2 * π)⁻¹ * (Real.sqrt cov.det)⁻¹ *
    Real.exp (-(1 / 2) * dot2 y (cov.inv.mulVec y))

/-- The likelihood the association loop computes for one line landmark with
mean `mu`: the sensor-covariance Gaussian density of
`diff(z, h(mu, 0))` (`slam/particle.py` lines 115-121). -/
def lineLik (px py th : ℝ) (nG : Mat2) (z mu : ℝ × ℝ) : ℝ :=
  gaussPdf2 (nG.mul nG.transpose) (lineDiff z (lineH px py th nG mu (0, 0)))

/-- The association loop of `Particle.make_line_observation`
(`slam/particle.py` lines 112-128): starting from
`max_likelihood, best_key = 0, 0`, keep the key of strictly larger
likelihood. -/
def lineAssocScan (px py th : ℝ) (nG : Mat2) (z : ℝ × ℝ)
    (lms : List (Int × (ℝ × ℝ))) : ℝ × Int :=
  lms.foldl
    (fun acc kl =>
      if acc.1 < lineLik px py th nG z kl.2 then (lineLik px py th nG z kl.2, kl.1)
      else acc)
    (0, 0)

/-- Python `min` over a nonempty list, written head-and-tail. -/
def pyMin (k : Int) (ks : List Int) : Int := ks.foldl min k

/-- The fresh-key rule of `Particle.make_line_observation`
(`slam/particle.py` line 134): `min(observed_lines_keys) - 1` when line
keys exist, else `-1`. -/
def freshLineKey (keys : List Int) : Int :=
  match keys with
  | [] => -1
  | k :: ks => pyMin k ks - 1

/-- The landmark id `Particle.make_line_observation` dispatches to
`Map.update` (`slam/particle.py` lines 95-134): the best-likelihood key
over the negative (line) keys, replaced by a fresh key when the maximum
likelihood is below `0.2`. -/
def lineAssocKey (px py th : ℝ) (nG : Mat2) (z : ℝ × ℝ)
    (landmarks : List (Int × (ℝ × ℝ))) : Int :=
  let lineLms := landmarks.filter (fun kl => kl.1 < 0)
  let scan := lineAssocScan px py th nG z lineLms
  if scan.1 < 0.2 then freshLineKey (lineLms.map Prod.fst) else scan.2

/-- Modelled from the spec: `EKF.get_Mahalanobis_squared` of the missing
`ekf/ekf.py`, per spec section 4.1: `y^T S^(-1) y` with innovation
covariance `S = Hx Sigma Hx^T + Hn Hn^T`. -/
def mahalanobisSqSpec (Sigma Hx Hn : Mat2) (y : ℝ × ℝ) : ℝ :=
  dot2 y ((((Hx.mul (Sigma.mul Hx.transpose)).add (Hn.mul Hn.transpose)).inv).mulVec y)

/-- The noise gain `diag(10, 10)` of the C3 counterexample. -/
def nGten : Mat2 := ⟨10, 0, 0, 10⟩

/-- The creation covariance `Dhx_inv @ Dhn @ Dhn.T @ Dhx_inv.T` the line
landmark of the C3 counterexample received from `Map.update`
(`slam/map.py` lines 356-361), at pose `(0, 0, 0)` and state `(1, 0)`. -/
def covCex : Mat2 :=
  ((((lineDhx 0 0 (1, 0)).inv).mul (lineDhn nGten (1, 0))).mul
      ((lineDhn nGten (1, 0)).transpose)).mul (((lineDhx 0 0 (1, 0)).inv).transpose)

theorem lineH_origin_unit : lineH 0 0 0 nGten (1, 0) (0, 0) = (1, 0) := by
  simp only [lineH, rotCCW, Mat2.transpose, Mat2.mulVec, dot2, nGten]
  norm_num [wrapPi_zero, Real.cos_zero, Real.sin_zero]

theorem lineLik_cex_value : lineLik 0 0 0 nGten (1, 0) (1, 0) = (200 * π)⁻¹ := by
  unfold lineLik gaussPdf2
  rw [lineH_origin_unit]
  have hy : lineDiff (1, 0) (1, 0) = (0, 0) := by
    simp [lineDiff, wrapPi_zero]
  rw [hy]
  have hq : dot2 (0, 0) (((nGten.mul nGten.transpose).inv).mulVec (0, 0)) = 0 := by
    simp [dot2]
  rw [hq]
  have hdet : (nGten.mul nGten.transpose).det = 10000 := by
    norm_num [Mat2.mul, Mat2.transpose, Mat2.det, nGten]
  rw [hdet]
  have hs : Real.sqrt 10000 = 100 := by
    rw [show (10000 : ℝ) = 100 ^ 2 by norm_num]
    exact Real.sqrt_sq (by norm_num)
  rw [hs]
  norm_num [Real.exp_zero]
  ring

/-- Claim C3 (corrected), counterexample: pose `(0,0,0)`, noise gain
`diag(10,10)`, one line landmark at key `-1` with mean `(1,0)`, and
measurement `z = (1,0)` equal to the predicted measurement.  The squared
Mahalanobis distance of `z` through the landmark's EKF is `0 <= 9 = tau^2`,
so the claim says key `-1` is reused; the code instead compares the
sensor-covariance Gaussian density (here `1/(200 pi) < 0.2`) and allocates
the fresh key `-2`. -/
theorem lineAssocKey_ignores_mahalanobis :
    mahalanobisSqSpec covCex (lineDhx 0 0 (1, 0)) (lineDhn nGten (1, 0))
        (lineDiff (1, 0) (lineH 0 0 0 nGten (1, 0) (0, 0))) = 0 ∧
      (0 : ℝ) ≤ 9 ∧
      lineAssocKey 0 0 0 nGten (1, 0) [(-1, (1, 0))] = -2 ∧
      (-2 : Int) ≠ -1 := by
  have hy : lineDiff (1, 0) (lineH 0 0 0 nGten (1, 0) (0, 0)) = (0, 0) := by
    rw [lineH_origin_unit]
    simp [lineDiff, wrapPi_zero]
  refine ⟨?_, by norm_num, ?_, by decide⟩
  · rw [hy]
    simp [mahalanobisSqSpec, dot2]
  · have hpos : (0 : ℝ) < (200 * π)⁻¹ := by positivity
    have hscan : lineAssocScan 0 0 0 nGten (1, 0) [(-1, (1, 0))] =
        ((200 * π)⁻¹, -1) := by
      unfold lineAssocScan
      simp only [List.foldl, lineLik_cex_value]
      rw [if_pos hpos]
    have hlt : ((200 * π)⁻¹ : ℝ) < 0.2 := by
      have h5 : (5 : ℝ) < 200 * π := by nlinarith [Real.pi_gt_three]
      calc ((200 * π)⁻¹ : ℝ) < 5⁻¹ := by
            exact inv_strictAnti₀ (by norm_num) h5
        _ = 0.2 := by norm_num
    show (if (lineAssocScan 0 0 0 nGten (1, 0)
        (List.filter (fun kl => decide (kl.1 < 0)) [(-1, (1, 0))])).1 < 0.2 then _
      else _) = (-2 : Int)
    have hfil : List.filter (fun (kl : Int × (ℝ × ℝ)) => decide (kl.1 < 0))
        [(-1, (1, 0))] = [(-1, (1, 0))] := by
      simp
    rw [hfil, hscan, if_pos hlt]
    simp [freshLineKey, pyMin]

theorem assocFold_spec (f : Int × (ℝ × ℝ) → ℝ) (lms : List (Int × (ℝ × ℝ))) :
    ∀ acc : ℝ × Int,
      (lms.foldl (fun acc kl => if acc.1 < f kl then (f kl, kl.1) else acc) acc = acc ∨
        ∃ kl ∈ lms,
          lms.foldl (fun acc kl => if acc.1 < f kl then (f kl, kl.1) else acc) acc =
            (f kl, kl.1)) ∧
      acc.1 ≤ (lms.foldl (fun acc kl => if acc.1 < f kl then (f kl, kl.1) else acc) acc).1 ∧
      ∀ kl ∈ lms,
        f kl ≤ (lms.foldl (fun acc kl => if acc.1 < f kl then (f kl, kl.1) else acc) acc).1 := by
  induction lms with
  | nil => exact fun acc => ⟨Or.inl rfl, le_refl _, by simp⟩
  | cons hd tl ih =>
    intro acc
    by_cases h : acc.1 < f hd
    · have step : (hd :: tl).foldl (fun acc kl => if acc.1 < f kl then (f kl, kl.1) else acc) acc =
          tl.foldl (fun acc kl => if acc.1 < f kl then (f kl, kl.1) else acc) (f hd, hd.1) := by
        simp [List.foldl, if_pos h]
      obtain ⟨hmem, hmono, hall⟩ := ih (f hd, hd.1)
      refine ⟨?_, ?_, ?_⟩
      · rw [step]
        rcases hmem with heq | ⟨kl, hkl, heq⟩
        · exact Or.inr ⟨hd, List.mem_cons_self hd tl, heq⟩
        · exact Or.inr ⟨kl, List.mem_cons_of_mem hd hkl, heq⟩
      · rw [step]; exact le_trans (le_of_lt h) hmono
      · intro kl hkl
        rw [step]
        rcases List.mem_cons.mp hkl with rfl | hmem2
        · exact hmono
        · exact hall kl hmem2
    · have step : (hd :: tl).foldl (fun acc kl => if acc.1 < f kl then (f kl, kl.1) else acc) acc =
          tl.foldl (fun acc kl => if acc.1 < f kl then (f kl, kl.1) else acc) acc := by
        simp [List.foldl, if_neg h]
      obtain ⟨hmem, hmono, hall⟩ := ih acc
      refine ⟨?_, ?_, ?_⟩
      · rw [step]
        rcases hmem with heq | ⟨kl, hkl, heq⟩
        · exact Or.inl heq
        · exact Or.inr ⟨kl, List.mem_cons_of_mem hd hkl, heq⟩
      · rw [step]; exact hmono
      · intro kl hkl
        rw [step]
        rcases List.mem_cons.mp hkl with rfl | hmem2
        · exact le_trans (not_lt.mp h) hmono
        · exact hall kl hmem2

theorem pyMin_le_left (ks : List Int) : ∀ k, pyMin k ks ≤ k := by
  induction ks with
  | nil => intro k; exact le_refl _
  | cons hd tl ih =>
    intro k
    calc pyMin k (hd :: tl) = pyMin (min k hd) tl := rfl
      _ ≤ min k hd := ih _
      _ ≤ k := min_le_left _ _

theorem pyMin_le_mem (ks : List Int) : ∀ k x, x ∈ ks → pyMin k ks ≤ x := by
  induction ks with
  | nil => intro k x hx; cases hx
  | cons hd tl ih =>
    intro k x hx
    have hstep : pyMin k (hd :: tl) = pyMin (min k hd) tl := rfl
    rw [hstep]
    rcases List.mem_cons.mp hx with h1 | h2
    · subst h1
      exact le_trans (pyMin_le_left tl _) (min_le_right _ _)
    · exact ih _ x h2

theorem pyMin_le (ks : List Int) (k x : Int) (hx : x ∈ k :: ks) :
    pyMin k ks ≤ x := by
  rcases List.mem_cons.mp hx with h1 | h2
  · subst h1; exact pyMin_le_left ks x
  · exact pyMin_le_mem ks k x h2

theorem freshLineKey_lt (keys : List Int) (k : Int) (hk : k ∈ keys) :
    freshLineKey keys < k := by
  match keys with
  | [] => cases hk
  | k0 :: ks =>
    have h := pyMin_le ks k0 k hk
    have : freshLineKey (k0 :: ks) = pyMin k0 ks - 1 := rfl
    omega

theorem freshLineKey_neg (keys : List Int) (hneg : ∀ k ∈ keys, k < 0) :
    freshLineKey keys < 0 := by
  match keys with
  | [] => decide
  | k0 :: ks =>
    have h := freshLineKey_lt (k0 :: ks) k0 (List.mem_cons_self _ _)
    have h0 := hneg k0 (List.mem_cons_self _ _)
    omega

/-- Claim C3 (corrected), amended: for every existing line landmark
(negative key) the code computes the Gaussian density of
`diff(z, h(mu, 0))` under the sensor covariance `n_gain n_gain^T` (not a
Mahalanobis distance through the landmark's EKF); the key of maximal
density is reused if and only if that maximum is at least `0.2`, and
otherwise a fresh key equal to `min(existing line keys) - 1`, or `-1`
when no line exists, is used (in particular the fresh key is negative
and below every existing line key). -/
theorem lineAssocKey_spec (px py th : ℝ) (nG : Mat2) (z : ℝ × ℝ)
    (landmarks : List (Int × (ℝ × ℝ))) :
    ((lineAssocScan px py th nG z (landmarks.filter (fun kl => kl.1 < 0))).1 < 0.2 ∧
      lineAssocKey px py th nG z landmarks =
        freshLineKey ((landmarks.filter (fun kl => kl.1 < 0)).map Prod.fst) ∧
      lineAssocKey px py th nG z landmarks < 0 ∧
      ∀ k ∈ (landmarks.filter (fun kl => kl.1 < 0)).map Prod.fst,
        lineAssocKey px py th nG z landmarks < k) ∨
    (0.2 ≤ (lineAssocScan px py th nG z (landmarks.filter (fun kl => kl.1 < 0))).1 ∧
      ∃ kl ∈ landmarks.filter (fun kl => kl.1 < 0),
        lineAssocKey px py th nG z landmarks = kl.1 ∧
        (lineAssocScan px py th nG z (landmarks.filter (fun kl => kl.1 < 0))).1 =
          lineLik px py th nG z kl.2 ∧
        ∀ kl2 ∈ landmarks.filter (fun kl => kl.1 < 0),
          lineLik px py th nG z kl2.2 ≤
            (lineAssocScan px py th nG z (landmarks.filter (fun kl => kl.1 < 0))).1) := by
  have hneg : ∀ k ∈ (landmarks.filter (fun kl => kl.1 < 0)).map Prod.fst, k < 0 := by
    intro k hk
    rcases List.mem_map.mp hk with ⟨kl, hin, rfl⟩
    have := List.mem_filter.mp hin
    exact of_decide_eq_true this.2
  by_cases h : (lineAssocScan px py th nG z (landmarks.filter (fun kl => kl.1 < 0))).1 < 0.2
  · left
    have hkey : lineAssocKey px py th nG z landmarks =
        freshLineKey ((landmarks.filter (fun kl => kl.1 < 0)).map Prod.fst) := by
      unfold lineAssocKey
      rw [if_pos h]
    refine ⟨h, hkey, ?_, ?_⟩
    · rw [hkey]; exact freshLineKey_neg _ hneg
    · intro k hk
      rw [hkey]
      exact freshLineKey_lt _ k hk
  · right
    obtain ⟨hmem, hmono, hall⟩ :=
      assocFold_spec (fun kl => lineLik px py th nG z kl.2)
        (landmarks.filter (fun kl => kl.1 < 0)) (0, 0)
    have hge : (0.2 : ℝ) ≤ (lineAssocScan px py th nG z
        (landmarks.filter (fun kl => kl.1 < 0))).1 := not_lt.mp h
    have hscan_def : lineAssocScan px py th nG z (landmarks.filter (fun kl => kl.1 < 0)) =
        (landmarks.filter (fun kl => kl.1 < 0)).foldl
          (fun acc kl => if acc.1 < lineLik px py th nG z kl.2
            then (lineLik px py th nG z kl.2, kl.1) else acc) (0, 0) := rfl
    rcases hmem with heq | ⟨kl, hkl, heq⟩
    · exfalso
      rw [hscan_def, heq] at hge
      norm_num at hge
    · have hkey : lineAssocKey px py th nG z landmarks = kl.1 := by
        unfold lineAssocKey
        rw [if_neg h, hscan_def, heq]
      refine ⟨hge, kl, hkl, hkey, ?_, ?_⟩
      · rw [hscan_def, heq]
      · intro kl2 hkl2
        rw [hscan_def]
        exact hall kl2 hkl2

/-- Claim C4 (code_bug): at pose `(2, 0, 0)` and canonical world line
`(rho, alpha) = (1, 0)` (so `rho >= 0` and `alpha` in `(-pi, pi]`), the
noise-free robot-frame `rho` is `-1 < 0`; the code negates it without
adding `pi` to the angle, and `h_inv (h x)` evaluates to `(3, 0)`, not
the identity the claim states. -/
theorem lineHinv_lineH_not_id :
    lineHinv 2 0 0 (lineH 2 0 0 Mat2.id (1, 0) (0, 0)) = (3, 0) ∧
      ((3 : ℝ), (0 : ℝ)) ≠ ((1 : ℝ), (0 : ℝ)) ∧
      (0 : ℝ) ≤ 1 ∧ -π < 0 ∧ (0 : ℝ) ≤ π := by
  refine ⟨?_, by norm_num, by norm_num, neg_lt_zero.mpr Real.pi_pos,
    Real.pi_nonneg⟩
  have hz : lineH 2 0 0 Mat2.id (1, 0) (0, 0) = (1, 0) := by
    simp only [lineH, rotCCW, Mat2.transpose, Mat2.mulVec, Mat2.id, dot2]
    norm_num [wrapPi_zero, Real.cos_zero, Real.sin_zero]
  rw [hz]
  simp only [lineHinv, rotCCW, Mat2.mulVec, dot2]
  norm_num [wrapPi_zero, Real.cos_zero, Real.sin_zero]

/-- A landmark as `slam/map.py` holds it: the EKF belief (mean and
covariance), the sensor model installed once at creation by
`set_sensor_model` (`Map.update`, line 364), and `seen_counter`
(`Landmark.__init__` starts it at 0, line 126). -/
structure LandmarkL where
  mu : ℝ × ℝ
  cov : Mat2
  h : ℝ × ℝ → ℝ × ℝ → ℝ × ℝ
  dhx : ℝ × ℝ → Mat2
  dhn : ℝ × ℝ → Mat2
  seenCounter : ℕ

/-- A 2-d observation as `slam/map.py` defines it (`UnorientedObservation`
and `LineObservation`): a landmark id, the measurement `z`, and the
measurement-model callables.  `Map.update` passes the closures a
`parameters` argument that is always `None` in the calls of
`slam/particle.py`; the embedding types the closures without it (they
capture the pose instead). -/
structure Obs2 where
  landmark_id : Int
  z : ℝ × ℝ
  h : ℝ × ℝ → ℝ × ℝ → ℝ × ℝ
  h_inv : ℝ × ℝ → ℝ × ℝ
  get_Dhx : ℝ × ℝ → Mat2
  get_Dhn : ℝ × ℝ → Mat2

/-- Lookup in the `landmarks` dict, modelled as an insertion-ordered
association list. -/
def lookupL (m : List (Int × LandmarkL)) (k : Int) : Option LandmarkL :=
  match m with
  | [] => none
  | (k0, lm) :: rest => if k0 = k then some lm else lookupL rest k

/-- Overwrite the entry of an existing key, leaving the order unchanged
(Python `dict` assignment on a present key). -/
def setKey (m : List (Int × LandmarkL)) (k : Int) (lm : LandmarkL) :
    List (Int × LandmarkL) :=
  match m with
  | [] => []
  | (k0, lm0) :: rest =>
    if k0 = k then (k0, lm) :: rest else (k0, lm0) :: setKey rest k lm

/-- Modelled from the spec: `EKF.get_likelihood(z, diff, normalize=False)`
of the missing `ekf/ekf.py`, per spec section 4.1:
`exp(-(1/2) y^T S^(-1) y)` without the Gaussian prefactor, where
`y = diff(z, h(mu, 0))` and `S = Hx Sigma Hx^T + Hn Hn^T`. -/
def ekfLikelihoodRaw (lm : LandmarkL) (z : ℝ × ℝ)
    (dif : ℝ × ℝ → ℝ × ℝ → ℝ × ℝ) : ℝ :=
  let y := dif z (lm.h lm.mu (0, 0))
  let Hx := lm.dhx lm.mu
  let Hn := lm.dhn lm.mu
  let S := (Hx.mul (lm.cov.mul Hx.transpose)).add (Hn.mul Hn.transpose)
  Real.exp (-(1 / 2) * dot2 y (S.inv.mulVec y))

/-- `Landmark.update(zx)` (`slam/map.py` lines 131-136): push the
state-space `zx` through the sensor model and run the EKF measurement
update, then increment `seen_counter`.  The EKF equations are modelled
from the spec (section 4.1), `ekf/ekf.py` being absent from the
snapshot; the zero lower-bound covariance of the landmark settings
clamps the diagonal at 0. -/
def landmarkUpdate (lm : LandmarkL) (zx : ℝ × ℝ)
    (dif : ℝ × ℝ → ℝ × ℝ → ℝ × ℝ) : LandmarkL :=
  let z := lm.h zx (0, 0)
  let y := dif z (lm.h lm.mu (0, 0))
  let Hx := lm.dhx lm.mu
  let Hn := lm.dhn lm.mu
  let S := (Hx.mul (lm.cov.mul Hx.transpose)).add (Hn.mul Hn.transpose)
  let K := (lm.cov.mul Hx.transpose).mul S.inv
  let KH := K.mul Hx
  let IKH : Mat2 := ⟨1 - KH.a, -KH.b, -KH.c, 1 - KH.d⟩
  let cov2 := IKH.mul lm.cov
  ⟨(lm.mu.1 + (K.mulVec y).1, lm.mu.2 + (K.mulVec y).2),
    ⟨max cov2.a 0, cov2.b, cov2.c, max cov2.d 0⟩,
    lm.h, lm.dhx, lm.dhn, lm.seenCounter + 1⟩

/-- The covariance `Dhx_inv @ Dhn @ Dhn.T @ Dhx_inv.T` a fresh landmark
receives (`Map.update`, `slam/map.py` lines 356-361). -/
def covInit (obs : Obs2) : Mat2 :=
  let x0 := obs.h_inv obs.z
  let Dhn := obs.get_Dhn x0
  let DhxInv := (obs.get_Dhx x0).inv
  ((DhxInv.mul Dhn).mul Dhn.transpose).mul DhxInv.transpose

/-- Result of `Map.update`: `raised m` models the `LinAlgError` that
`np.linalg.inv` raises on a singular creation Jacobian, carrying the map
as of the raise (nothing was inserted yet); `ok m r` is the normal
return, with `r = none` modelling the Python `None` sentinel returned on
creation. -/
inductive UpdRes where
  | raised (m : List (Int × LandmarkL))
  | ok (m : List (Int × LandmarkL)) (r : Option ℝ)

/-- The map carried by either outcome. -/
def updMap (u : UpdRes) : List (Int × LandmarkL) :=
  match u with
  | UpdRes.raised m => m
  | UpdRes.ok m _ => m

/-- `Map.update(obs, diff, parameters)` (`slam/map.py` lines 354-370), with
`parameters = None` as every call in `slam/particle.py` passes it.  On an
absent id: compute `x0 = h_inv(z)`, invert `get_Dhx(x0)` (raising before
any insertion when it is singular), append the new landmark with
`seen_counter = 0`, and return `none`; on a present id: return the
unnormalized likelihood of `z` and run the landmark update. -/
def mapUpdate (m : List (Int × LandmarkL)) (obs : Obs2)
    (dif : ℝ × ℝ → ℝ × ℝ → ℝ × ℝ) : UpdRes :=
  match lookupL m obs.landmark_id with
  | none =>
    let x0 := obs.h_inv obs.z
    if (obs.get_Dhx x0).det = 0 then UpdRes.raised m
    else
      UpdRes.ok
        (m ++ [(obs.landmark_id, ⟨x0, covInit obs, obs.h, obs.get_Dhx, obs.get_Dhn, 0⟩)])
        none
  | some lm =>
    UpdRes.ok (setKey m obs.landmark_id (landmarkUpdate lm (obs.h_inv obs.z) dif))
      (some (ekfLikelihoodRaw lm obs.z dif))

/-- The default `diff` of `Map.update` (`slam/map.py` line 354):
componentwise subtraction. -/
def defaultDiff (x y : ℝ × ℝ) : ℝ × ℝ := (x.1 - y.1, x.2 - y.2)

theorem mapUpdate_creation_cases (m : List (Int × LandmarkL)) (obs : Obs2)
    (dif : ℝ × ℝ → ℝ × ℝ → ℝ × ℝ)
    (habs : lookupL m obs.landmark_id = none) :
    ((obs.get_Dhx (obs.h_inv obs.z)).det = 0 →
      mapUpdate m obs dif = UpdRes.raised m) ∧
    ((obs.get_Dhx (obs.h_inv obs.z)).det ≠ 0 →
      mapUpdate m obs dif =
        UpdRes.ok
          (m ++ [(obs.landmark_id,
            ⟨obs.h_inv obs.z, covInit obs, obs.h, obs.get_Dhx, obs.get_Dhn, 0⟩)])
          none) := by
  constructor
  · intro h
    simp [mapUpdate, habs, h]
  · intro h
    simp [mapUpdate, habs, h]

/-- Claim C10 (confirmed): on an absent landmark id, a singular Jacobian
`get_Dhx` at the initial estimate `h_inv(z)` makes `Map.update` raise a
linear-algebra error before any insertion, leaving the map unchanged; when
that Jacobian is invertible the error branch is unreachable and the call
appends the landmark and returns the `None` sentinel. -/
theorem mapUpdate_singular_raises (m : List (Int × LandmarkL)) (obs : Obs2)
    (dif : ℝ × ℝ → ℝ × ℝ → ℝ × ℝ)
    (habs : lookupL m obs.landmark_id = none) :
    ((obs.get_Dhx (obs.h_inv obs.z)).det = 0 →
      mapUpdate m obs dif = UpdRes.raised m) ∧
    ((obs.get_Dhx (obs.h_inv obs.z)).det ≠ 0 →
      mapUpdate m obs dif =
        UpdRes.ok
          (m ++ [(obs.landmark_id,
            ⟨obs.h_inv obs.z, covInit obs, obs.h, obs.get_Dhx, obs.get_Dhn, 0⟩)])
          none) :=
  mapUpdate_creation_cases m obs dif habs

/-- An observation whose declared Jacobian is singular everywhere. -/
def obsSingular : Obs2 :=
  { landmark_id := 7
    z := (0, 0)
    h := fun x _ => x
    h_inv := fun z => z
    get_Dhx := fun _ => ⟨0, 0, 0, 0⟩
    get_Dhn := fun _ => Mat2.id }

/-- Witness for C10: on the empty map and the singular observation, the
update raises and the map stays empty. -/
theorem mapUpdate_singular_raises_witness :
    mapUpdate [] obsSingular defaultDiff = UpdRes.raised [] :=
  (mapUpdate_singular_raises [] obsSingular defaultDiff rfl).1
    (by norm_num [obsSingular, Mat2.det])

/-- An observation with identity model functions, observing fresh id 5. -/
def obsFresh : Obs2 :=
  { landmark_id := 5
    z := (0, 0)
    h := fun x _ => x
    h_inv := fun z => z
    get_Dhx := fun _ => Mat2.id
    get_Dhn := fun _ => Mat2.id }

/-- The landmark `Map.update` creates for `obsFresh` on the empty map. -/
def lmFresh : LandmarkL :=
  ⟨obsFresh.h_inv obsFresh.z, covInit obsFresh, obsFresh.h, obsFresh.get_Dhx,
    obsFresh.get_Dhn, 0⟩

theorem mapUpdate_obsFresh :
    mapUpdate [] obsFresh defaultDiff = UpdRes.ok [(5, lmFresh)] none := by
  have h : (obsFresh.get_Dhx (obsFresh.h_inv obsFresh.z)).det ≠ 0 := by
    norm_num [obsFresh, Mat2.det, Mat2.id]
  simpa [lmFresh] using (mapUpdate_creation_cases [] obsFresh defaultDiff rfl).2 h

/-- Claim C7 (corrected), counterexample: after the very first observation
of a landmark, the landmark exists in the map with `seen_counter = 0`
(`Landmark.__init__`, `slam/map.py` line 126, and the creation branch of
`Map.update` never increments it), refuting that `seen_count >= 1` is set
on creation. -/
theorem seenCounter_zero_on_creation :
    (lookupL (updMap (mapUpdate [] obsFresh defaultDiff)) 5).map
        LandmarkL.seenCounter = some 0 := by
  rw [mapUpdate_obsFresh]
  simp [updMap, lookupL, lmFresh]

/-- Number of occurrences of a key in a trace of observed landmark ids. -/
def countKey (tr : List Int) (k : Int) : ℕ :=
  match tr with
  | [] => 0
  | a :: rest => (if a = k then 1 else 0) + countKey rest k

theorem countKey_append (t1 t2 : List Int) (k : Int) :
    countKey (t1 ++ t2) k = countKey t1 k + countKey t2 k := by
  induction t1 with
  | nil => simp [countKey]
  | cons hd tl ih => simp [countKey, ih]; omega

theorem lookupL_append_right (m : List (Int × LandmarkL)) (k : Int)
    (lm : LandmarkL) (habs : lookupL m k = none) :
    lookupL (m ++ [(k, lm)]) k = some lm := by
  induction m with
  | nil => simp [lookupL]
  | cons hd tl ih =>
    by_cases h : hd.1 = k
    · exfalso
      simp [lookupL, h] at habs
    · simp only [lookupL, List.cons_append] at habs ⊢
      rw [if_neg h] at habs ⊢
      exact ih habs

theorem lookupL_append_other (m : List (Int × LandmarkL)) (k k2 : Int)
    (lm : LandmarkL) (hne : k2 ≠ k) :
    lookupL (m ++ [(k, lm)]) k2 = lookupL m k2 := by
  have hne2 : ¬ k = k2 := fun hh => hne hh.symm
  induction m with
  | nil => simp [lookupL, hne2]
  | cons hd tl ih =>
    obtain ⟨k0, lmh⟩ := hd
    by_cases h : k0 = k2
    · simp [lookupL, h]
    · simp only [lookupL, List.cons_append, if_neg h]
      exact ih

theorem lookupL_setKey_self (m : List (Int × LandmarkL)) (k : Int)
    (lm0 lm : LandmarkL) (hk : lookupL m k = some lm0) :
    lookupL (setKey m k lm) k = some lm := by
  induction m with
  | nil => simp [lookupL] at hk
  | cons hd tl ih =>
    obtain ⟨k0, lmh⟩ := hd
    by_cases h : k0 = k
    · simp [setKey, lookupL, h]
    · simp only [setKey, lookupL, if_neg h] at hk ⊢
      exact ih hk

theorem lookupL_setKey_other (m : List (Int × LandmarkL)) (k k2 : Int)
    (lm : LandmarkL) (hne : k2 ≠ k) :
    lookupL (setKey m k lm) k2 = lookupL m k2 := by
  induction m with
  | nil => simp [setKey, lookupL]
  | cons hd tl ih =>
    obtain ⟨k0, lmh⟩ := hd
    by_cases h : k0 = k
    · have h4 : ¬ k = k2 := fun hh => hne hh.symm
      simp [setKey, lookupL, h, h4]
    · by_cases h3 : k0 = k2
      · simp [setKey, lookupL, h, h3, hne]
      · simp only [setKey, lookupL, if_neg h, if_neg h3]
        exact ih

/-- A map state reachable from the empty map through successful
`Map.update` calls, together with the trace of observed landmark ids. -/
inductive MapReach : List (Int × LandmarkL) → List Int → Prop where
  | nil : MapReach [] []
  | step (m : List (Int × LandmarkL)) (tr : List Int) (obs : Obs2)
      (dif : ℝ × ℝ → ℝ × ℝ → ℝ × ℝ) (m2 : List (Int × LandmarkL)) (r : Option ℝ)
      (hprev : MapReach m tr) (hupd : mapUpdate m obs dif = UpdRes.ok m2 r) :
      MapReach m2 (tr ++ [obs.landmark_id])

/-- Claim C7 (corrected), amended: in every reachable map, every landmark
carries `seen_counter` equal to the number of accepted observations of
its id minus one: it is set to 0 on creation (the first observation) and
incremented exactly once on every accepted update thereafter; moreover an
id never observed is not in the map. -/
theorem mapReach_seenCounter (m : List (Int × LandmarkL)) (tr : List Int)
    (hreach : MapReach m tr) :
    (∀ k lm, lookupL m k = some lm → lm.seenCounter + 1 = countKey tr k) ∧
    (∀ k, lookupL m k = none → countKey tr k = 0) := by
  induction hreach with
  | nil => exact ⟨fun k lm h => by simp [lookupL] at h, fun k _ => rfl⟩
  | step m tr obs dif m2 r hprev hupd ih =>
    obtain ⟨ihSome, ihNone⟩ := ih
    cases hm : lookupL m obs.landmark_id with
    | none =>
      simp only [mapUpdate, hm] at hupd
      by_cases hdet : (obs.get_Dhx (obs.h_inv obs.z)).det = 0
      · rw [if_pos hdet] at hupd
        exact absurd hupd (by simp)
      · rw [if_neg hdet] at hupd
        injection hupd with hm2 hr
        subst hm2
        constructor
        · intro k lm hk
          by_cases hkk : k = obs.landmark_id
          · rw [hkk] at hk ⊢
            rw [lookupL_append_right m obs.landmark_id _ hm] at hk
            injection hk with hlm
            subst hlm
            rw [countKey_append, ihNone obs.landmark_id hm]
            simp [countKey]
          · have hne : ¬ obs.landmark_id = k := fun hh => hkk hh.symm
            rw [lookupL_append_other m obs.landmark_id k _ hkk] at hk
            have h1 := ihSome k lm hk
            rw [countKey_append]
            simp [countKey, hne]
            omega
        · intro k hk
          by_cases hkk : k = obs.landmark_id
          · rw [hkk] at hk
            rw [lookupL_append_right m obs.landmark_id _ hm] at hk
            exact absurd hk (by simp)
          · have hne : ¬ obs.landmark_id = k := fun hh => hkk hh.symm
            rw [lookupL_append_other m obs.landmark_id k _ hkk] at hk
            rw [countKey_append, ihNone k hk]
            simp [countKey, hne]
    | some lm0 =>
      simp only [mapUpdate, hm] at hupd
      injection hupd with hm2 hr
      subst hm2
      constructor
      · intro k lm hk
        by_cases hkk : k = obs.landmark_id
        · rw [hkk] at hk ⊢
          rw [lookupL_setKey_self m obs.landmark_id lm0 _ hm] at hk
          injection hk with hlm
          subst hlm
          have h1 := ihSome obs.landmark_id lm0 hm
          rw [countKey_append]
          simp only [landmarkUpdate]
          simp [countKey]
          omega
        · have hne : ¬ obs.landmark_id = k := fun hh => hkk hh.symm
          rw [lookupL_setKey_other m obs.landmark_id k _ hkk] at hk
          have h1 := ihSome k lm hk
          rw [countKey_append]
          simp [countKey, hne]
          omega
      · intro k hk
        by_cases hkk : k = obs.landmark_id
        · rw [hkk] at hk
          rw [lookupL_setKey_self m obs.landmark_id lm0 _ hm] at hk
          exact absurd hk (by simp)
        · have hne : ¬ obs.landmark_id = k := fun hh => hkk hh.symm
          rw [lookupL_setKey_other m obs.landmark_id k _ hkk] at hk
          rw [countKey_append, ihNone k hk]
          simp [countKey, hne]

/-- Witness for the amended C7: after the single observation trace `[5]`,
the created landmark satisfies `seen_counter + 1 = 1`. -/
theorem mapReach_seenCounter_witness :
    lmFresh.seenCounter + 1 = countKey ([] ++ [obsFresh.landmark_id]) 5 := by
  have hreach : MapReach [(5, lmFresh)] ([] ++ [obsFresh.landmark_id]) :=
    MapReach.step [] [] obsFresh defaultDiff [(5, lmFresh)] none MapReach.nil
      mapUpdate_obsFresh
  exact (mapReach_seenCounter [(5, lmFresh)] ([] ++ [obsFresh.landmark_id])
    hreach).1 5 lmFresh (by simp [lookupL])

/-- A particle as `slam/particle.py` holds it: pose `(x, y, theta)`, the
owned map, and the importance weight. -/
structure ParticleL where
  pose : ℝ × ℝ × ℝ
  lmap : List (Int × LandmarkL)
  weight : ℝ

/-- Result of a particle observation method.  `ok` is the normal return;
`typeErr` models the `TypeError` Python raises at
`self.weight *= self.map.update(obs)` when `Map.update` returned the
`None` sentinel (the particle is carried as of the raise: the map already
mutated, the weight untouched); `numErr` propagates a `LinAlgError`
raised inside `Map.update`. -/
inductive ObsOutcome where
  | ok (p : ParticleL)
  | typeErr (p : ParticleL)
  | numErr (p : ParticleL)

/-- The particle state either outcome carries. -/
def outParticle (o : ObsOutcome) : ParticleL :=
  match o with
  | ObsOutcome.ok p => p
  | ObsOutcome.typeErr p => p
  | ObsOutcome.numErr p => p

/-- Whether the outcome is the `TypeError` raise. -/
def isTypeErr (o : ObsOutcome) : Bool :=
  match o with
  | ObsOutcome.typeErr _ => true
  | _ => false

/-- The measurement closure `h` of `Particle.make_unoriented_observation`
(`slam/particle.py` lines 159-163). -/
def unorH (R : Mat2) (p : ℝ × ℝ) (nG : Mat2) (x n : ℝ × ℝ) : ℝ × ℝ :=
  let z0 := R.mulVec (x.1 - p.1, x.2 - p.2)
  let rErr := (nG.mulVec n).1
  let angErr := (nG.mulVec n).2
  let Rerr : Mat2 :=
    ⟨Real.cos angErr, Real.sin angErr, -Real.sin angErr, Real.cos angErr⟩
  let s := 1 + rErr / Real.sqrt (z0.1 ^ 2 + z0.2 ^ 2)
  (s * (Rerr.mulVec z0).1, s * (Rerr.mulVec z0).2)

/-- The noise Jacobian closure `get_Dhn` of
`Particle.make_unoriented_observation` (`slam/particle.py` lines
171-173). -/
def unorDhn (R : Mat2) (p : ℝ × ℝ) (nG : Mat2) (x : ℝ × ℝ) : Mat2 :=
  let z := R.mulVec (x.1 - p.1, x.2 - p.2)
  (⟨z.1, -z.2, z.2, z.1⟩ : Mat2).mul nG

/-- `Particle.make_unoriented_observation` (`slam/particle.py` lines
146-183): convert `(r, phi)` to Cartesian `z`, build the observation with
id `obs_data[0] + 100` and the pose-capturing closures, dispatch to
`Map.update`, then execute `self.weight *= self.map.update(obs)` - which
on a fresh landmark multiplies the weight by `None` and raises. -/
def makeUnorientedObservation (part : ParticleL) (obsData : Int × (ℝ × ℝ))
    (nG : Mat2) : ObsOutcome :=
  let px := part.pose.1
  let py := part.pose.2.1
  let th := part.pose.2.2
  let p : ℝ × ℝ := (px, py)
  let R : Mat2 := ⟨Real.cos th, Real.sin th, -Real.sin th, Real.cos th⟩
  let r := obsData.2.1
  let phi := obsData.2.2
  let obs : Obs2 :=
    { landmark_id := obsData.1 + 100
      z := (r * Real.cos phi, r * Real.sin phi)
      h := unorH R p nG
      h_inv := fun z => ((R.transpose.mulVec z).1 + px, (R.transpose.mulVec z).2 + py)
      get_Dhx := fun _ => R
      get_Dhn := unorDhn R p nG }
  match mapUpdate part.lmap obs defaultDiff with
  | UpdRes.raised m2 => ObsOutcome.numErr ⟨part.pose, m2, part.weight⟩
  | UpdRes.ok m2 none => ObsOutcome.typeErr ⟨part.pose, m2, part.weight⟩
  | UpdRes.ok m2 (some lik) => ObsOutcome.ok ⟨part.pose, m2, part.weight * lik⟩

/-- Claim C1 (code_bug): a particle at pose `(0,0,0)` with an empty map
observing the fresh fiducial `(0, (1, 0))` with identity noise gain:
`Map.update` creates the landmark (key `0 + 100 = 100`) and returns the
`None` sentinel, and the particle then executes `self.weight *= None`,
raising `TypeError` - the operation aborts (with the landmark already
inserted and the weight left at its old value) instead of completing with
the weight unchanged as the claim states. -/
theorem makeUnoriented_fresh_raises :
    isTypeErr (makeUnorientedObservation ⟨(0, 0, 0), [], 1⟩ (0, (1, 0)) Mat2.id) =
        true ∧
      (outParticle (makeUnorientedObservation ⟨(0, 0, 0), [], 1⟩ (0, (1, 0))
          Mat2.id)).weight = 1 ∧
      (lookupL (outParticle (makeUnorientedObservation ⟨(0, 0, 0), [], 1⟩ (0, (1, 0))
          Mat2.id)).lmap 100).isSome = true := by
  have hdet : ¬ ((⟨Real.cos 0, Real.sin 0, -Real.sin 0, Real.cos 0⟩ : Mat2).det = 0) := by
    norm_num [Mat2.det, Real.cos_zero, Real.sin_zero]
  simp only [makeUnorientedObservation, mapUpdate, lookupL, if_neg hdet]
  refine ⟨rfl, ?_, ?_⟩
  · simp [outParticle]
  · simp [outParticle, lookupL]

/-- A `Map` object under reference semantics: the `landmarks` attribute is
a reference into a heap of dictionaries. -/
structure MapRef where
  landmarksRef : ℕ

/-- The heap of landmark dictionaries, indexed by reference. -/
def Store := List (List (Int × LandmarkL))

/-- `Map.copy` (`slam/map.py` lines 386-387) is `copy.copy(self)`: a new
`Map` object holding the same `landmarks` dict reference (a shallow
copy - the dict itself is not duplicated). -/
def mapCopy (m : MapRef) : MapRef := ⟨m.landmarksRef⟩

/-- A particle under reference semantics: the map holds a dict reference,
pose and weight are value-copied scalars. -/
structure ParticleRef where
  mapRef : MapRef
  pose : ℝ × ℝ × ℝ
  weight : ℝ

/-- `Particle.copy` (`slam/particle.py` lines 236-239):
`Particle(self.map.copy(), copy.copy(self.pose), copy.copy(self.weight))`. -/
def particleCopy (p : ParticleRef) : ParticleRef :=
  ⟨mapCopy p.mapRef, p.pose, p.weight⟩

/-- The dict a reference designates in the heap. -/
def storeDict (s : Store) (ref : ℕ) : List (Int × LandmarkL) :=
  List.getD s ref []

/-- Creating a landmark through a map object: append to the dict its
reference designates (what the creation branch of `Map.update` does to
shared state). -/
def storeInsert (s : Store) (ref : ℕ) (k : Int) (lm : LandmarkL) : Store :=
  List.set s ref (storeDict s ref ++ [(k, lm)])

/-- A fresh particle whose map is dict reference 0. -/
def pRef0 : ParticleRef := ⟨⟨0⟩, (0, 0, 0), 1⟩

/-- A heap with the single empty dict of `pRef0`. -/
def store0 : Store := [[]]

/-- Claim C2 (code_bug): `q = p.copy()` shares the `landmarks` dict with
`p` (`copy.copy` duplicates the `Map` object but not the dict), so
creating a landmark through `q` is visible through `p`: the maps are
aliased, not independent. -/
theorem particleCopy_aliases :
    (particleCopy pRef0).mapRef = pRef0.mapRef ∧
      lookupL
        (storeDict
          (storeInsert store0 (particleCopy pRef0).mapRef.landmarksRef 100 lmFresh)
          pRef0.mapRef.landmarksRef)
        100 = some lmFresh := by
  constructor
  · rfl
  · simp [particleCopy, mapCopy, pRef0, store0, storeInsert, storeDict, lookupL]

/-- The kind of a map key, by the operation that created it. -/
inductive KeyKind where
  | line
  | unoriented
  | oriented
deriving DecidableEq

/-- The landmark id `Particle.make_unoriented_observation` assigns
(`slam/particle.py` line 176): `obs_data[0] + 100`, the external marker
id shifted by 100. -/
def unorientedLandmarkId (obsData : Int × (ℝ × ℝ)) : Int := obsData.1 + 100

/-- The landmark id `Particle.make_oriented_observation` assigns
(`slam/particle.py` line 227): `obs_data[0]`, the external marker id
unshifted. -/
def orientedLandmarkId (obsData : Int × (ℝ × ℝ × ℝ)) : Int := obsData.1

/-- Claim C6 (corrected), counterexample: an oriented observation of the
fiducial with external marker id 0 creates the landmark key 0, which is
not strictly positive (the oriented path applies no shift into a
positive range). -/
theorem orientedLandmarkId_zero :
    orientedLandmarkId (0, ((1 : ℝ), (0 : ℝ), (0 : ℝ))) = 0 ∧
      ¬ (0 < orientedLandmarkId (0, ((1 : ℝ), (0 : ℝ), (0 : ℝ)))) := by
  constructor
  · rfl
  · norm_num [orientedLandmarkId]

/-- The key states reachable from the empty map by the three observation
operations of `slam/particle.py`, assuming nonnegative external marker
ids; each entry records a created key and the operation that created it
(reusing an existing landmark adds no key). -/
inductive KeysReach : List (Int × KeyKind) → Prop where
  | nil : KeysReach []
  | lineNew (s : List (Int × KeyKind)) (hs : KeysReach s) :
      KeysReach (s ++ [(freshLineKey ((s.map Prod.fst).filter (fun k => k < 0)),
        KeyKind.line)])
  | unorientedNew (s : List (Int × KeyKind)) (id : Int) (hid : 0 ≤ id)
      (hs : KeysReach s) :
      KeysReach (s ++ [(unorientedLandmarkId (id, ((0 : ℝ), (0 : ℝ))),
        KeyKind.unoriented)])
  | orientedNew (s : List (Int × KeyKind)) (id : Int) (hid : 0 ≤ id)
      (hs : KeysReach s) :
      KeysReach (s ++ [(orientedLandmarkId (id, ((0 : ℝ), (0 : ℝ), (0 : ℝ))),
        KeyKind.oriented)])

theorem keysReach_inv (s : List (Int × KeyKind)) (hs : KeysReach s) :
    (∀ e ∈ s, e.2 = KeyKind.line → e.1 < 0) ∧
    (∀ e ∈ s, e.2 = KeyKind.unoriented → 100 ≤ e.1) ∧
    (∀ e ∈ s, e.2 = KeyKind.oriented → 0 ≤ e.1) ∧
    ((s.filter (fun e => e.2 = KeyKind.line)).map Prod.fst).Pairwise
      (fun a b => b < a) := by
  induction hs with
  | nil => exact ⟨by simp, by simp, by simp, by simp⟩
  | lineNew s hs ih =>
    obtain ⟨ihL, ihU, ihO, ihP⟩ := ih
    have hnegfil : ∀ k ∈ (s.map Prod.fst).filter (fun k => k < 0), k < 0 := by
      intro k hk
      have := List.mem_filter.mp hk
      exact of_decide_eq_true this.2
    have hfresh : freshLineKey ((s.map Prod.fst).filter (fun k => k < 0)) < 0 :=
      freshLineKey_neg _ hnegfil
    have hline_sub : ∀ e ∈ s, e.2 = KeyKind.line →
        e.1 ∈ (s.map Prod.fst).filter (fun k => k < 0) := by
      intro e he hkind
      refine List.mem_filter.mpr ⟨List.mem_map.mpr ⟨e, he, rfl⟩, ?_⟩
      exact decide_eq_true (ihL e he hkind)
    refine ⟨?_, ?_, ?_, ?_⟩
    · intro e he hkind
      rcases List.mem_append.mp he with h1 | h2
      · exact ihL e h1 hkind
      · rcases List.mem_singleton.mp h2 with rfl
        exact hfresh
    · intro e he hkind
      rcases List.mem_append.mp he with h1 | h2
      · exact ihU e h1 hkind
      · rcases List.mem_singleton.mp h2 with rfl
        cases hkind
    · intro e he hkind
      rcases List.mem_append.mp he with h1 | h2
      · exact ihO e h1 hkind
      · rcases List.mem_singleton.mp h2 with rfl
        cases hkind
    · rw [List.filter_append, List.map_append]
      refine List.pairwise_append.mpr ⟨ihP, ?_, ?_⟩
      · simp
      · intro a ha b hb
        have ha2 : a ∈ (s.filter (fun e => e.2 = KeyKind.line)).map Prod.fst := ha
        rcases List.mem_map.mp ha2 with ⟨e, hef, rfl⟩
        have hes : e ∈ s := (List.mem_filter.mp hef).1
        have hkind : e.2 = KeyKind.line :=
          of_decide_eq_true (List.mem_filter.mp hef).2
        have hb2 : b = freshLineKey ((s.map Prod.fst).filter (fun k => k < 0)) := by
          simpa using hb
        rw [hb2]
        exact freshLineKey_lt _ e.1 (hline_sub e hes hkind)
  | unorientedNew s id hid hs ih =>
    obtain ⟨ihL, ihU, ihO, ihP⟩ := ih
    refine ⟨?_, ?_, ?_, ?_⟩
    · intro e he hkind
      rcases List.mem_append.mp he with h1 | h2
      · exact ihL e h1 hkind
      · rcases List.mem_singleton.mp h2 with rfl
        cases hkind
    · intro e he hkind
      rcases List.mem_append.mp he with h1 | h2
      · exact ihU e h1 hkind
      · rcases List.mem_singleton.mp h2 with rfl
        simp only [unorientedLandmarkId]
        omega
    · intro e he hkind
      rcases List.mem_append.mp he with h1 | h2
      · exact ihO e h1 hkind
      · rcases List.mem_singleton.mp h2 with rfl
        cases hkind
    · rw [List.filter_append, List.map_append]
      refine List.pairwise_append.mpr ⟨ihP, by simp, ?_⟩
      intro a ha b hb
      exfalso
      simp at hb
  | orientedNew s id hid hs ih =>
    obtain ⟨ihL, ihU, ihO, ihP⟩ := ih
    refine ⟨?_, ?_, ?_, ?_⟩
    · intro e he hkind
      rcases List.mem_append.mp he with h1 | h2
      · exact ihL e h1 hkind
      · rcases List.mem_singleton.mp h2 with rfl
        cases hkind
    · intro e he hkind
      rcases List.mem_append.mp he with h1 | h2
      · exact ihU e h1 hkind
      · rcases List.mem_singleton.mp h2 with rfl
        cases hkind
    · intro e he hkind
      rcases List.mem_append.mp he with h1 | h2
      · exact ihO e h1 hkind
      · rcases List.mem_singleton.mp h2 with rfl
        exact hid
    · rw [List.filter_append, List.map_append]
      refine List.pairwise_append.mpr ⟨ihP, by simp, ?_⟩
      intro a ha b hb
      exfalso
      simp at hb

/-- Claim C6 (corrected), amended: in every reachable key state (with
nonnegative external marker ids), line keys are strictly negative and
strictly decreasing in creation order, unoriented fiducial keys are at
least 100, oriented fiducial keys are nonnegative but not necessarily
strictly positive (the oriented path uses the raw marker id, so id 0
gives key 0), and a line key never equals a fiducial key. -/
theorem keysReach_discipline (s : List (Int × KeyKind)) (hs : KeysReach s) :
    (∀ e ∈ s, e.2 = KeyKind.line → e.1 < 0) ∧
    (∀ e ∈ s, e.2 = KeyKind.unoriented → 100 ≤ e.1) ∧
    (∀ e ∈ s, e.2 = KeyKind.oriented → 0 ≤ e.1) ∧
    ((s.filter (fun e => e.2 = KeyKind.line)).map Prod.fst).Pairwise
      (fun a b => b < a) ∧
    (∀ e ∈ s, ∀ e2 ∈ s, e.2 = KeyKind.line → e2.2 ≠ KeyKind.line →
      e.1 ≠ e2.1) := by
  obtain ⟨hL, hU, hO, hP⟩ := keysReach_inv s hs
  refine ⟨hL, hU, hO, hP, ?_⟩
  intro e he e2 he2 hkind hkind2
  have h1 : e.1 < 0 := hL e he hkind
  have h2 : 0 ≤ e2.1 := by
    cases hk2 : e2.2 with
    | line => exact absurd hk2 hkind2
    | unoriented => have := hU e2 he2 hk2; omega
    | oriented => exact hO e2 he2 hk2
  omega

/-- Witness for the amended C6: the state reached by a line observation,
an oriented observation of marker 0, then a second line observation is
`[(-1, line), (0, oriented), (-2, line)]`, and its line keys `[-1, -2]`
are pairwise strictly decreasing. -/
theorem keysReach_discipline_witness :
    ((([((-1 : Int), KeyKind.line), (0, KeyKind.oriented), (-2, KeyKind.line)]).filter
        (fun e => e.2 = KeyKind.line)).map Prod.fst).Pairwise (fun a b => b < a) := by
  have h1 : KeysReach [((-1 : Int), KeyKind.line)] := by
    simpa [freshLineKey] using KeysReach.lineNew [] KeysReach.nil
  have h2 : KeysReach [((-1 : Int), KeyKind.line), (0, KeyKind.oriented)] := by
    simpa [orientedLandmarkId] using
      KeysReach.orientedNew [((-1 : Int), KeyKind.line)] 0 (le_refl 0) h1
  have h3 : KeysReach
      [((-1 : Int), KeyKind.line), (0, KeyKind.oriented), (-2, KeyKind.line)] := by
    have h := KeysReach.lineNew [((-1 : Int), KeyKind.line), (0, KeyKind.oriented)] h2
    have hkeys : (([((-1 : Int), KeyKind.line), (0, KeyKind.oriented)]).map
        Prod.fst).filter (fun k => k < 0) = [(-1 : Int)] := by decide
    rw [hkeys] at h
    simpa [freshLineKey, pyMin] using h
  exact (keysReach_discipline _ h3).2.2.2.1

/-- Python list indexing `lst[i]` with negative-index wraparound (the
replay driver indexes `data.odometry[-k]`). -/
def pyGet (l : List (ℝ × ℝ × ℝ)) (i : Int) : ℝ × ℝ × ℝ :=
  if 0 ≤ i then List.getD l i.toNat (0, 0, 0)
  else List.getD l (l.length - (-i).toNat) (0, 0, 0)

/-- The odometry delta the replay driver computes at the k-th odometry
event (`slam/offline.py` lines 52-61): it unpacks
`x0, y0, theta0 = data.odometry[-k][1]` and
`x1, y1, theta1 = data.odometry[k][1]` - although each stored array is
`[theta, x, y]` - and forms
`[sqrt(((x1-x0)/1000)^2 + ((y1-y0)/1000)^2), (theta1-theta0)*180/pi]`. -/
def codeOdomDelta (odometry : List (ℝ × ℝ × ℝ)) (k : ℕ) : ℝ × ℝ :=
  let a0 := pyGet odometry (-(k : Int))
  let a1 := pyGet odometry (k : Int)
  (Real.sqrt (((a1.1 - a0.1) / 1000) ^ 2 + ((a1.2.1 - a0.2.1) / 1000) ^ 2),
    (a1.2.2 - a0.2.2) * 180 / π)

/-- Modelled from the spec (section 4.5): the prescribed odometry delta
between the successive readings `k-1` and `k`, each stored as
`[theta, x, y]`: the Euclidean distance between the positions and the
heading change in radians. -/
def specOdomDelta (odometry : List (ℝ × ℝ × ℝ)) (k : ℕ) : ℝ × ℝ :=
  let a0 := pyGet odometry ((k : Int) - 1)
  let a1 := pyGet odometry (k : Int)
  (Real.sqrt ((a1.2.1 - a0.2.1) ^ 2 + (a1.2.2 - a0.2.2) ^ 2), a1.1 - a0.1)

/-- The three-reading odometry log of the C8 failing input, each reading
in the declared `[theta, x, y]` order. -/
def odo3 : List (ℝ × ℝ × ℝ) := [(0, 0, 0), (1, 3, 4), (5, 10, 2)]

/-- Claim C8 (code_bug): at the first odometry event of `odo3` the code
diffs reading 1 against reading `-1` (the last) and unpacks the arrays in
the wrong order, producing the angular delta `(4 - 2) * 180 / pi`
degrees, whereas the claimed (and spec-prescribed) delta is the heading
change `1 - 0 = 1` radian; the two are different. -/
theorem codeOdomDelta_diverges :
    (codeOdomDelta odo3 1).2 = 360 / π ∧ (specOdomDelta odo3 1).2 = 1 ∧
      (360 / π : ℝ) ≠ 1 := by
  refine ⟨?_, ?_, ?_⟩
  · show ((pyGet odo3 1).2.2 - (pyGet odo3 (-(1 : Int))).2.2) * 180 / π = 360 / π
    have h1 : pyGet odo3 1 = (1, 3, 4) := by
      simp [pyGet, odo3]
    have h2 : pyGet odo3 (-(1 : Int)) = (5, 10, 2) := by
      simp [pyGet, odo3]
    rw [h1, h2]
    norm_num
  · show (pyGet odo3 1).1 - (pyGet odo3 ((1 : Int) - 1)).1 = 1
    have h1 : pyGet odo3 1 = (1, 3, 4) := by
      simp [pyGet, odo3]
    have h2 : pyGet odo3 ((1 : Int) - 1) = (0, 0, 0) := by
      norm_num [pyGet, odo3]
    rw [h1, h2]
    norm_num
  · intro h
    rw [div_eq_one_iff_eq (ne_of_gt Real.pi_pos)] at h
    have := Real.pi_le_four
    linarith

/-- One `hash_repr.update(...)` chunk of `SensorData.hash_str`
(`sensor_data/sensor_data.py` lines 61-90): the four bytes of
`struct.pack("f", v)` for a number `v`, or the raw buffer of an array. -/
inductive HashChunk where
  | packF (v : Int)
  | arrBytes (a : List ℚ)
deriving DecidableEq

/-- The `SensorData` container restricted to the fields `hash_str` reads:
integer timestamps, arrays as rational lists, camera frames as lists of
`(fiducial_id, array)` detections (images are never read). -/
structure SensorDataM where
  odometry : List (Int × List ℚ)
  lidar : List (Int × List ℚ)
  camera : List (Int × List (Int × List ℚ))
deriving DecidableEq

/-- The byte-chunk stream `SensorData.hash_str` feeds to SHA-1
(`sensor_data/sensor_data.py` lines 64-88): per odometry and lidar record
the packed timestamp then the array buffer; per camera frame the packed
timestamp, then per detection the line `idbytes = struct.pack("f", t)`
packs the timestamp again - not the id - followed by the detection
array.  The digest is a deterministic function of this stream. -/
def hashStream (d : SensorDataM) : List HashChunk :=
  (d.odometry.map fun r => [HashChunk.packF r.1, HashChunk.arrBytes r.2]).flatten ++
    (d.lidar.map fun r => [HashChunk.packF r.1, HashChunk.arrBytes r.2]).flatten ++
    (d.camera.map fun r =>
      HashChunk.packF r.1 ::
        (r.2.map fun det => [HashChunk.packF r.1, HashChunk.arrBytes det.2]).flatten).flatten

/-- Modelled from the spec (section 6): the intended stream, which packs
each detection's fiducial id instead of repeating the timestamp. -/
def specHashStream (d : SensorDataM) : List HashChunk :=
  (d.odometry.map fun r => [HashChunk.packF r.1, HashChunk.arrBytes r.2]).flatten ++
    (d.lidar.map fun r => [HashChunk.packF r.1, HashChunk.arrBytes r.2]).flatten ++
    (d.camera.map fun r =>
      HashChunk.packF r.1 ::
        (r.2.map fun det => [HashChunk.packF det.1, HashChunk.arrBytes det.2]).flatten).flatten

/-- A container with one camera detection of fiducial 7. -/
def sdA : SensorDataM :=
  ⟨[(0, [1, 2, 3])], [(0, [4])], [(0, [(7, [1, 2])])]⟩

/-- The same container with the detection's fiducial id changed to 8. -/
def sdB : SensorDataM :=
  ⟨[(0, [1, 2, 3])], [(0, [4])], [(0, [(8, [1, 2])])]⟩

/-- Claim C9 (code_bug): two sensor-data containers differing only in one
detection's fiducial id feed SHA-1 the very same chunk stream (the code
packs the timestamp where the id was intended), hence hash equal, while
the spec-intended stream distinguishes them. -/
theorem hashStream_ignores_ids :
    hashStream sdA = hashStream sdB ∧ sdA ≠ sdB ∧
      specHashStream sdA ≠ specHashStream sdB := by
  refine ⟨rfl, by decide, by decide⟩

/-- Claim C5 (corrected), counterexample: for the measurements
`(0, pi)` and `(0, 0)` the angular component of `diff` is exactly `-pi`,
which is not in the claimed interval `(-pi, pi]` (it is not greater than
`-pi`). -/
theorem lineDiff_angle_eq_neg_pi :
    (lineDiff (0, π) (0, 0)).2 = -π ∧ ¬ (-π < (lineDiff (0, π) (0, 0)).2) := by
  have h : (lineDiff (0, π) (0, 0)).2 = -π := by
    simp only [lineDiff]
    simpa using wrapPi_pi
  exact ⟨h, by rw [h]; simp⟩

/-- Claim C5 (corrected), amended: for every pair of measurements, the
angular component of the line `diff` operator lies in `[-pi, pi)`,
closed below and open above (the code wraps with
`np.mod(d + pi, 2*pi) - pi`, whose range is `[-pi, pi)`). -/
theorem lineDiff_angle_mem_Ico (a b : ℝ × ℝ) :
    -π ≤ (lineDiff a b).2 ∧ (lineDiff a b).2 < π := by
  simpa [lineDiff] using wrapPi_mem (a.2 - b.2)

end
